import Mathlib

/-!
# ExactArithmetic.Rational

A shallow embedding of `src/rational.cpp` and a verification of the
properties its specification states about it.

Machine integers (`long long int`) are embedded as `Int`: every property
below is stated for integers taken without overflow.  C++ integer division
truncates toward zero (`Int.tdiv`) and is undefined for a zero divisor; the
embedding makes that outcome explicit as an error of its own, distinct from
the exceptions the library throws.
-/

namespace ExactArithmetic

/-- The ways an operation of `rational.cpp` can fail to return a value. -/
inductive Error where
  /-- The library's own exception, thrown by `normalise` (line 193). -/
  | DivideByZeroError
  /-- The exception `std::invalid_argument`, thrown by the constructor from text (line 54). -/
  | invalid_argument
  /-- A built-in integer division `a / b` evaluated with `b == 0`: undefined
  behaviour in C++ (a hardware trap on common targets), not an exception. -/
  | integerDivisionByZero
  deriving DecidableEq, Repr

/-- Equality of outcomes is decidable, so that concrete runs can be evaluated. -/
instance instDecidableEqExcept {ε α : Type} [DecidableEq ε] [DecidableEq α] :
    DecidableEq (Except ε α)
  | .ok a, .ok b => if h : a = b then isTrue (by rw [h]) else isFalse (fun h1 => h (by cases h1; rfl))
  | .error a, .error b =>
    if h : a = b then isTrue (by rw [h]) else isFalse (fun h1 => h (by cases h1; rfl))
  | .ok _, .error _ => isFalse (fun h => by cases h)
  | .error _, .ok _ => isFalse (fun h => by cases h)

/-- The class `Rational`: the two data members, with no invariant built in. -/
structure Rational where
  numerator : Int
  denominator : Int
  deriving DecidableEq, Repr

/-- Modelled from the spec: the helper `gcd` of `gcd.h`, which is not part of the
available source.  The spec describes it as the greatest common divisor of two
integers, which "must accept negative numerator (e.g. via absolute value
internally) and return a positive divisor". -/
def gcd (a b : Int) : Int := Int.ofNat (Nat.gcd a.natAbs b.natAbs)

/-- The built-in operator `/` on `long long int`: truncating division, undefined
for a zero divisor. -/
def intDiv (a b : Int) : Except Error Int :=
  if b = 0 then .error .integerDivisionByZero else .ok (a.tdiv b)

/-- The member `Rational::normalise()` (lines 189-212), as a function from the
members before the call to the members after it, or to the error raised. -/
def Rational.normalise (r : Rational) : Except Error Rational :=
  if r.denominator = 0 then
    .error .DivideByZeroError
  else
    let r1 : Rational :=
      if r.denominator < 0 then ⟨-r.numerator, -r.denominator⟩ else r
    if r1.numerator = 0 ∨ r1.denominator = 1 then
      .ok ⟨r1.numerator, 1⟩
    else
      let factor := gcd r1.numerator r1.denominator
      match intDiv r1.numerator factor, intDiv r1.denominator factor with
      | .ok n, .ok d => .ok ⟨n, d⟩
      | .error e, _ => .error e
      | .ok _, .error e => .error e

/-- The default constructor `Rational::Rational()` (lines 14-18). -/
def Rational.ctorDefault : Rational := ⟨0, 1⟩

/-- The constructor `Rational::Rational(long long int dividend, long long int divisor)`
(lines 20-26). -/
def Rational.ctor (dividend divisor : Int) : Except Error Rational :=
  Rational.normalise ⟨dividend, divisor⟩

/-- The constructor `Rational::Rational(int i)` (lines 28-32). -/
def Rational.ctorInt (i : Int) : Rational := ⟨i, 1⟩

/-- The member `operator==` (lines 59-62). -/
def Rational.eq (x r : Rational) : Bool :=
  (x.numerator == r.numerator) && (x.denominator == r.denominator)

/-- The member `operator!=` (lines 64-67). -/
def Rational.ne (x r : Rational) : Bool :=
  (x.numerator != r.numerator) && (x.denominator != r.denominator)

/-- The member `operator<` (lines 79-82). -/
def Rational.lt (x r : Rational) : Bool :=
  decide (x.numerator < r.numerator) || decide (x.denominator < r.denominator)

/-- The member `operator>` (lines 84-87). -/
def Rational.gt (x r : Rational) : Bool :=
  decide (x.numerator > r.numerator) || decide (x.denominator > r.denominator)

/-- The member `operator<=` (lines 89-92). -/
def Rational.le (x r : Rational) : Bool :=
  decide (x.numerator ≤ r.numerator) || decide (x.denominator ≤ r.denominator)

/-- The member `operator>=` (lines 94-97). -/
def Rational.ge (x r : Rational) : Bool :=
  decide (x.numerator ≥ r.numerator) || decide (x.denominator ≥ r.denominator)

/-- The member `operator+` (lines 109-112). -/
def Rational.add (x r : Rational) : Except Error Rational :=
  Rational.ctor (x.numerator + r.numerator) (x.denominator + r.denominator)

/-- The member `operator-` (lines 114-117). -/
def Rational.sub (x r : Rational) : Except Error Rational :=
  Rational.ctor (x.numerator - r.numerator) (x.denominator - r.denominator)

/-- The member `operator*` (lines 119-122). -/
def Rational.mul (x r : Rational) : Except Error Rational :=
  Rational.ctor (x.numerator * r.numerator) (x.denominator * r.denominator)

/-- The member `operator/` (lines 124-127): both constructor arguments are
built-in integer quotients, evaluated before the constructor runs. -/
def Rational.div (x r : Rational) : Except Error Rational :=
  match intDiv x.numerator r.denominator, intDiv x.denominator r.numerator with
  | .ok n, .ok d => Rational.ctor n d
  | .error e, _ => .error e
  | .ok _, .error e => .error e

/-- The outcome of a compound assignment on `*this`: the members after a normal
return, or the error raised together with the members at that point.
`normalise` throws before it changes anything, so after a `DivideByZeroError`
the members are the ones the assignment statements left. -/
abbrev Assigned := Except (Error × Rational) Rational

/-- The call `normalise()` that ends each mutating member, on the members `r`. -/
def Rational.renormalise (r : Rational) : Assigned :=
  match r.normalise with
  | .ok r1 => .ok r1
  | .error e => .error (e, r)

/-- The member `operator+=` (lines 131-137). -/
def Rational.addAssign (x r : Rational) : Assigned :=
  Rational.renormalise ⟨x.numerator + r.numerator, x.denominator + r.denominator⟩

/-- The member `operator-=` (lines 139-145). -/
def Rational.subAssign (x r : Rational) : Assigned :=
  Rational.renormalise ⟨x.numerator - r.numerator, x.denominator - r.denominator⟩

/-- The member `operator*=` (lines 147-153). -/
def Rational.mulAssign (x r : Rational) : Assigned :=
  Rational.renormalise ⟨x.numerator * r.numerator, x.denominator * r.denominator⟩

/-- The member `operator/=` (lines 155-161): two built-in integer divisions in
sequence, then `normalise`. -/
def Rational.divAssign (x r : Rational) : Assigned :=
  match intDiv x.numerator r.numerator with
  | .error e => .error (e, x)
  | .ok n =>
    match intDiv x.denominator r.denominator with
    | .error e => .error (e, ⟨n, x.denominator⟩)
    | .ok d => Rational.renormalise ⟨n, d⟩

/-- The static member `Rational::abs` (lines 165-168). -/
def Rational.abs (r : Rational) : Except Error Rational :=
  Rational.ctor r.numerator |r.denominator|

/-- The static member `Rational::negate` (lines 170-173). -/
def Rational.negate (r : Rational) : Except Error Rational :=
  Rational.ctor (-r.numerator) (-r.denominator)

/-- Canonical form, as the specification states it: positive denominator, zero
stored as `0/1`, and otherwise numerator and denominator coprime. -/
def Rational.Canonical (r : Rational) : Prop :=
  r.denominator > 0 ∧ (r.numerator = 0 → r.denominator = 1) ∧
    (r.numerator ≠ 0 → gcd |r.numerator| r.denominator = 1)

instance (r : Rational) : Decidable r.Canonical := by
  unfold Rational.Canonical; infer_instance

/-- The cross-multiplied formulas the specification gives for the four binary
operators, each handed to the two-argument constructor. -/
def specAdd (a b c d : Int) : Except Error Rational := Rational.ctor (a * d + c * b) (b * d)

/-- Specified difference of `a/b` and `c/d`. -/
def specSub (a b c d : Int) : Except Error Rational := Rational.ctor (a * d - c * b) (b * d)

/-- Specified product of `a/b` and `c/d`. -/
def specMul (a b c d : Int) : Except Error Rational := Rational.ctor (a * c) (b * d)

/-- Specified quotient of `a/b` and `c/d`. -/
def specDiv (a b c d : Int) : Except Error Rational := Rational.ctor (a * d) (b * c)

/-- The client expression `Rational(a, b) op Rational(c, d)`: both operands are
constructed, then the binary operator `op` is applied to them. -/
def onPairs (op : Rational → Rational → Except Error Rational) (a b c d : Int) :
    Except Error Rational :=
  match Rational.ctor a b, Rational.ctor c d with
  | .ok x, .ok y => op x y
  | .error e, _ => .error e
  | .ok _, .error e => .error e

/-- The result of a compound assignment seen as the result of an expression:
the value of `x` after a normal return, or the error raised. -/
def Assigned.outcome (a : Assigned) : Except Error Rational :=
  match a with
  | .ok r => .ok r
  | .error (e, _) => .error e

/-! ### Text output and input

The source reads and writes through `std::ostream` and `std::istream`.  The
parts of those library classes the source relies on are embedded here: decimal
output of an integer, and an input stream as the unread characters with the
`failbit` and `eofbit` flags.

Extraction of an integer comes in two layers.  `readInt` reads a number of any
size, which is what the library does for every token that fits
`long long int`, and so for every text `operator<<` writes.  `readLongLong`
adds what the library does with a token that does not fit: it stores the
nearest bound and sets `failbit`.  `Rational.readLL` and
`Rational.ctorStringLL` are `operator>>` and the constructor from text over
`readLongLong`, for arbitrary text. -/

/-- The character for one decimal digit. -/
def digitChar (d : Nat) : Char := Char.ofNat (48 + d)

/-- Decimal digits of `n`, most significant first, in front of `acc`. -/
def natToChars : Nat → Nat → List Char → List Char
  | 0, _, acc => acc
  | fuel + 1, n, acc =>
    if n / 10 = 0 then digitChar (n % 10) :: acc
    else natToChars fuel (n / 10) (digitChar (n % 10) :: acc)

/-- The text `output << n` writes for a non-negative integer. -/
def showNat (n : Nat) : List Char := natToChars (n + 1) n []

/-- The text `output << n` writes for a `long long int`: a minus sign for a
negative value, then the decimal digits. -/
def showInt (n : Int) : List Char :=
  if n < 0 then Char.ofNat 45 :: showNat n.natAbs else showNat n.natAbs

/-- The friend `operator<<` (lines 216-224): the characters appended to the
output stream. -/
def Rational.write (r : Rational) : List Char :=
  showInt r.numerator ++
    (if r.denominator ≠ 1 then Char.ofNat 47 :: showInt r.denominator else [])

/-- The string `operator<<` leaves in a fresh `std::ostringstream`. -/
def Rational.format (r : Rational) : String := String.mk r.write

/-- An input stream: the characters not yet read and the two state flags the
source can observe. -/
structure IStream where
  buf : List Char
  failbit : Bool
  eofbit : Bool
  deriving DecidableEq, Repr

/-- The member `good()`: no state flag is set. -/
def IStream.good (s : IStream) : Bool := !s.failbit && !s.eofbit

/-- The stream `std::istringstream iss(str)`. -/
def IStream.ofString (str : String) : IStream := ⟨str.toList, false, false⟩

/-- Whitespace of the classic locale: space and the control characters 9 to 13. -/
def isSpace (c : Char) : Bool := c.toNat == 32 || (decide (9 ≤ c.toNat) && decide (c.toNat ≤ 13))

/-- Decimal digits. -/
def isDigit (c : Char) : Bool := decide (48 ≤ c.toNat) && decide (c.toNat ≤ 57)

/-- The number a string of decimal digits denotes. -/
def digitsValue (ds : List Char) : Nat := ds.foldl (fun a c => 10 * a + (c.toNat - 48)) 0

/-- Whether the text begins with a decimal digit. -/
def startsWithDigit (t : List Char) : Bool :=
  match t with
  | [] => false
  | c :: _ => isDigit c

/-- The extraction `input >> v` for a `long long int v`, for a number of any
size (`readLongLong` adds the range of the type).  On a stream that is
not good it sets `failbit` and leaves `v` alone.  Otherwise it skips leading
whitespace; at the end of input it sets `failbit` and `eofbit` and leaves `v`
alone; else it reads an optional sign and the digits that follow, sets `eofbit`
when the digits run to the end of input, and stores the number, or stores 0
and sets `failbit` when there is no digit. -/
def readInt (input : IStream) (v : Int) : IStream × Int :=
  if input.good then
    match input.buf.dropWhile isSpace with
    | [] => (⟨[], true, true⟩, v)
    | c :: t =>
      let body := if c.toNat = 45 ∨ c.toNat = 43 then t else c :: t
      let ds := body.takeWhile isDigit
      let rest := body.dropWhile isDigit
      if ds.isEmpty then (⟨rest, true, rest.isEmpty⟩, 0)
      else (⟨rest, false, rest.isEmpty⟩,
        if c.toNat = 45 then -(digitsValue ds : Int) else (digitsValue ds : Int))
  else
    (⟨input.buf, true, input.eofbit⟩, v)

/-- The member `peek()`: the next character without removing it, or nothing when
the stream is not good (then `failbit` is set) or at its end (then `eofbit`). -/
def IStream.peek (input : IStream) : IStream × Option Char :=
  if input.good then
    match input.buf with
    | [] => (⟨[], input.failbit, true⟩, none)
    | c :: _ => (input, some c)
  else
    (⟨input.buf, true, input.eofbit⟩, none)

/-- The call `ignore(1)`: removes one character. -/
def IStream.ignore (input : IStream) : IStream :=
  if input.good then
    match input.buf with
    | [] => ⟨[], input.failbit, true⟩
    | _ :: t => ⟨t, input.failbit, input.eofbit⟩
  else
    ⟨input.buf, true, input.eofbit⟩

/-- The function `tryReadChar` (lines 226-237). -/
def tryReadChar (input : IStream) (c : Char) : IStream × Bool :=
  match input.peek with
  | (s, some p) => if p = c then (s.ignore, true) else (s, false)
  | (s, none) => (s, false)

/-- The function `readOptionalDivisor` (lines 239-247). -/
def readOptionalDivisor (input : IStream) : IStream × Int :=
  let divisor : Int := 1
  match tryReadChar input (Char.ofNat 47) with
  | (s, true) => readInt s divisor
  | (s, false) => (s, divisor)

/-- The friend `operator>>` (lines 249-255) on the stream `input` and the object
`r`, over `readInt`: the stream and the members afterwards, or the error
`normalise` raises. -/
def Rational.read (input : IStream) (r : Rational) : Except Error (IStream × Rational) :=
  match readInt input r.numerator with
  | (s1, n) =>
    match readOptionalDivisor s1 with
    | (s2, d) =>
      match Rational.normalise ⟨n, d⟩ with
      | .ok r1 => .ok (s2, r1)
      | .error e => .error e

/-- The constructor `Rational::Rational(const std::string & str)` (lines 50-55),
over `readInt`.  It does not initialise the members before `operator>>` runs; `init` stands for
whatever they hold then. -/
def Rational.ctorString (str : String) (init : Rational) : Except Error Rational :=
  match Rational.read (IStream.ofString str) init with
  | .error e => .error e
  | .ok (s, r) => if s.eofbit then .ok r else .error .invalid_argument

/-- The largest `long long int`. -/
def LLONG_MAX : Int := 9223372036854775807

/-- The smallest `long long int`. -/
def LLONG_MIN : Int := -9223372036854775808

/-- The values a `long long int` can hold. -/
def inRange (n : Int) : Prop := LLONG_MIN ≤ n ∧ n ≤ LLONG_MAX

instance (n : Int) : Decidable (inRange n) := by
  unfold inRange; infer_instance

/-- The value the library stores for a number read from text: the number itself
when it fits, else the nearest bound. -/
def clamp (n : Int) : Int :=
  if LLONG_MAX < n then LLONG_MAX else if n < LLONG_MIN then LLONG_MIN else n

/-- The extraction `input >> v` for a `long long int v`, with the range of the
type: as `readInt`, and when the digits read denote a number that does not fit,
all of them are still consumed, the nearest bound is stored and `failbit` is
set. -/
def readLongLong (input : IStream) (v : Int) : IStream × Int :=
  match readInt input v with
  | (s, n) =>
    if s.failbit then (s, n)
    else if LLONG_MAX < n then (⟨s.buf, true, s.eofbit⟩, LLONG_MAX)
    else if n < LLONG_MIN then (⟨s.buf, true, s.eofbit⟩, LLONG_MIN)
    else (s, n)

/-- The function `readOptionalDivisor` (lines 239-247) over `readLongLong`. -/
def readOptionalDivisorLL (input : IStream) : IStream × Int :=
  let divisor : Int := 1
  match tryReadChar input (Char.ofNat 47) with
  | (s, true) => readLongLong s divisor
  | (s, false) => (s, divisor)

/-- The friend `operator>>` (lines 249-255) over `readLongLong`. -/
def Rational.readLL (input : IStream) (r : Rational) : Except Error (IStream × Rational) :=
  match readLongLong input r.numerator with
  | (s1, n) =>
    match readOptionalDivisorLL s1 with
    | (s2, d) =>
      match Rational.normalise ⟨n, d⟩ with
      | .ok r1 => .ok (s2, r1)
      | .error e => .error e

/-- The constructor `Rational::Rational(const std::string & str)` (lines 50-55)
over `readLongLong`.  It does not initialise the members before `operator>>`
runs; `init` stands for whatever they hold then. -/
def Rational.ctorStringLL (str : String) (init : Rational) : Except Error Rational :=
  match Rational.readLL (IStream.ofString str) init with
  | .error e => .error e
  | .ok (s, r) => if s.eofbit then .ok r else .error .invalid_argument

/-- The sign in front of an integer in text. -/
inductive Sign where
  | absent
  | plus
  | minus
  deriving DecidableEq, Repr

/-- The characters of a sign. -/
def Sign.chars : Sign → List Char
  | .absent => []
  | .plus => [Char.ofNat 43]
  | .minus => [Char.ofNat 45]

/-- The number a sign makes of the value of the digits after it. -/
def Sign.apply : Sign → Nat → Int
  | .minus, n => -(n : Int)
  | _, n => (n : Int)

/-- An integer as `operator>>` accepts it in text: whitespace, a sign, digits. -/
structure IntToken where
  ws : List Char
  sign : Sign
  digits : List Char
  deriving DecidableEq, Repr

/-- The characters of an integer token. -/
def IntToken.text (k : IntToken) : List Char := k.ws ++ (k.sign.chars ++ k.digits)

/-- The number an integer token denotes. -/
def IntToken.value (k : IntToken) : Int := k.sign.apply (digitsValue k.digits)

/-- An integer token is well formed when its whitespace is whitespace and its
digits are one or more decimal digits. -/
def IntToken.WellFormed (k : IntToken) : Prop :=
  (∀ c ∈ k.ws, isSpace c = true) ∧ k.digits ≠ [] ∧ (∀ c ∈ k.digits, isDigit c = true)

instance (k : IntToken) : Decidable k.WellFormed := by
  unfold IntToken.WellFormed; infer_instance

/-! ### Construction from a floating-point value

The scaling loop of `Rational::Rational(double)` (lines 34-48), with `x` taken
as an exact non-negative rational number. -/

/-- The loop `while (x < precision) { x *= 10; denominator *= 10; }` run for at
most `fuel + 1` tests of its condition: the values of `x` and `denominator`
when the condition is found false, or nothing when it was true every time. -/
def scaleLoop : Nat → Rat → Int → Option (Rat × Int)
  | 0, x, denominator => if x < 1000000 then none else some (x, denominator)
  | fuel + 1, x, denominator =>
    if x < 1000000 then scaleLoop fuel (x * 10) (denominator * 10) else some (x, denominator)

/-- The conversion `static_cast<long long int>` of an exact rational: rounding
toward zero. -/
def truncate (q : Rat) : Int := q.num.tdiv q.den

/-- The constructor `Rational::Rational(double r)` (lines 34-48) on an exact
rational `r`, its loop bounded by `fuel`: nothing when the loop has not ended
within the bound, else the outcome of the construction. -/
def Rational.ctorDouble (fuel : Nat) (r : Rat) : Option (Except Error Rational) :=
  match scaleLoop fuel |r| 1 with
  | none => none
  | some (_, denominator) =>
    match Rational.normalise ⟨truncate (r * denominator), denominator⟩ with
    | .ok v => some (.ok v)
    | .error e => some (.error e)

/-! ## Normalisation computes the reduced fraction -/

theorem gcd_eq_natCast (a b : Int) : gcd a b = ((Int.gcd a b : Nat) : Int) := rfl

theorem gcd_pos_of_right {a b : Int} (hb : b ≠ 0) : 0 < gcd a b := by
  rw [gcd_eq_natCast]
  exact_mod_cast Int.gcd_pos_of_ne_zero_right a hb

theorem gcd_dvd_left (a b : Int) : gcd a b ∣ a := by
  rw [gcd_eq_natCast]; exact Int.gcd_dvd_left

theorem gcd_dvd_right (a b : Int) : gcd a b ∣ b := by
  rw [gcd_eq_natCast]; exact Int.gcd_dvd_right

/-- On a positive denominator `normalise` returns the numerator and denominator
of the mathematical rational `n / d`. -/
theorem normalise_pos (n d : Int) (hd : 0 < d) :
    Rational.normalise ⟨n, d⟩ = .ok ⟨(Rat.divInt n d).num, (Rat.divInt n d).den⟩ := by
  have hd0 : d ≠ 0 := ne_of_gt hd
  have hnl : ¬ d < 0 := not_lt.mpr hd.le
  unfold Rational.normalise
  simp only [hd0, hnl, if_false]
  by_cases h0 : n = 0
  · subst h0
    simp
  by_cases h1 : d = 1
  · subst h1
    simp
  have hg : gcd n d ≠ 0 := ne_of_gt (gcd_pos_of_right hd0)
  have hnum : n.tdiv (gcd n d) = (Rat.divInt n d).num := by
    rw [Int.tdiv_eq_ediv_of_dvd (gcd_dvd_left n d), Rat.num_mk, gcd_eq_natCast,
      Int.sign_eq_one_of_pos hd, one_mul]
  have hden : d.tdiv (gcd n d) = ((Rat.divInt n d).den : Int) := by
    rw [Int.tdiv_eq_ediv_of_dvd (gcd_dvd_right n d), Rat.den_mk, if_neg hd0, gcd_eq_natCast,
      Int.natCast_div, Int.natCast_natAbs, abs_of_pos hd]
  simp only [h0, h1, or_self, if_false, intDiv, hg, hnum, hden]

/-- A negative denominator is first replaced by its opposite, together with the numerator. -/
theorem normalise_neg (n d : Int) (hd : d < 0) :
    Rational.normalise ⟨n, d⟩ = Rational.normalise ⟨-n, -d⟩ := by
  have hd0 : d ≠ 0 := ne_of_lt hd
  have hnd0 : -d ≠ 0 := neg_ne_zero.mpr hd0
  have hnl : ¬ -d < 0 := by omega
  unfold Rational.normalise
  simp only [hd0, hnd0, hd, hnl, if_false, if_true]

/-- The value `normalise` returns for any nonzero denominator. -/
theorem normalise_eq (n d : Int) (hd : d ≠ 0) :
    Rational.normalise ⟨n, d⟩ = .ok ⟨(Rat.divInt n d).num, (Rat.divInt n d).den⟩ := by
  rcases lt_or_gt_of_ne hd with h | h
  · rw [normalise_neg n d h, normalise_pos (-n) (-d) (by omega), Rat.neg_divInt_neg]
  · exact normalise_pos n d h

theorem normalise_zero (n : Int) : Rational.normalise ⟨n, 0⟩ = .error .DivideByZeroError := by
  simp [Rational.normalise]

/-- The pair of numerator and denominator of a mathematical rational is canonical. -/
theorem canonical_of_rat (q : Rat) : Rational.Canonical ⟨q.num, q.den⟩ := by
  refine ⟨?_, fun h => ?_, fun _ => ?_⟩
  · show (0 : Int) < q.den
    exact_mod_cast q.den_pos
  · have hq : q = 0 := Rat.num_eq_zero.mp h
    subst hq
    rfl
  · show gcd |q.num| q.den = 1
    rw [gcd_eq_natCast, Int.gcd_eq_natAbs, Int.natAbs_abs, Int.natAbs_ofNat]
    exact_mod_cast q.reduced

/-- A canonical pair is the numerator and denominator of the rational it denotes. -/
theorem canonical_eq_rat (r : Rational) (h : r.Canonical) :
    r = ⟨(Rat.divInt r.numerator r.denominator).num,
      (Rat.divInt r.numerator r.denominator).den⟩ := by
  obtain ⟨n, d⟩ := r
  obtain ⟨hpos, hz, hg⟩ := h
  simp only at hpos hz hg
  have hd0 : d ≠ 0 := ne_of_gt hpos
  by_cases h0 : n = 0
  · subst h0
    simp [hz rfl]
  have hg1 : Int.gcd n d = 1 := by
    have := hg h0
    rw [gcd_eq_natCast] at this
    have h2 : Int.gcd |n| d = 1 := by exact_mod_cast this
    rwa [Int.gcd_eq_natAbs, Int.natAbs_abs, ← Int.gcd_eq_natAbs] at h2
  rw [Rat.num_mk, Rat.den_mk, if_neg hd0, hg1, Int.sign_eq_one_of_pos hpos]
  simp [abs_of_pos hpos]

/-- C2: at `Rational(1, 2) + Rational(1, 3)` the code adds numerators and
denominators separately and returns `2/5`, where the documented formula
`(a*d + c*b) / (b*d)` gives `5/6`. -/
theorem add_is_componentwise :
    onPairs Rational.add 1 2 1 3 = .ok ⟨2, 5⟩ ∧ specAdd 1 2 1 3 = .ok ⟨5, 6⟩ ∧
    onPairs Rational.add 1 2 1 3 ≠ specAdd 1 2 1 3 := by
  decide

/-- C3: at `Rational(1, 2) - Rational(1, 3)` the code subtracts numerators and
denominators separately and returns `0/1`, where the documented formula
`(a*d - c*b) / (b*d)` gives `1/6`; at `Rational(1, 2) - Rational(1, 2)` it does
not return at all but raises `DivideByZeroError`. -/
theorem sub_is_componentwise :
    onPairs Rational.sub 1 2 1 3 = .ok ⟨0, 1⟩ ∧ specSub 1 2 1 3 = .ok ⟨1, 6⟩ ∧
    onPairs Rational.sub 1 2 1 2 = .error .DivideByZeroError ∧
    specSub 1 2 1 2 = .ok ⟨0, 1⟩ := by
  decide

/-- C4: for `b != 0` and `d != 0`, `Rational(a, b) * Rational(c, d)` returns a
value, and it is the value `Rational(a*c, b*d)`: the componentwise product of
the two reduced operands normalises to the same canonical pair as the product
of the unreduced pairs. -/
theorem mul_correct (a b c d : Int) (hb : b ≠ 0) (hd : d ≠ 0) :
    ∃ r, onPairs Rational.mul a b c d = .ok r ∧ specMul a b c d = .ok r := by
  have hbd : b * d ≠ 0 := mul_ne_zero hb hd
  have hden : ((Rat.divInt a b).den : Int) * ((Rat.divInt c d).den : Int) ≠ 0 :=
    mul_ne_zero (by exact_mod_cast (Rat.divInt a b).den_nz)
      (by exact_mod_cast (Rat.divInt c d).den_nz)
  have hq : Rat.divInt ((Rat.divInt a b).num * (Rat.divInt c d).num)
      (((Rat.divInt a b).den : Int) * ((Rat.divInt c d).den : Int))
      = Rat.divInt (a * c) (b * d) := by
    rw [← Rat.divInt_mul_divInt _ _ (by exact_mod_cast (Rat.divInt a b).den_nz)
      (by exact_mod_cast (Rat.divInt c d).den_nz), Rat.num_divInt_den, Rat.num_divInt_den,
      Rat.divInt_mul_divInt _ _ hb hd]
  refine ⟨⟨(Rat.divInt (a * c) (b * d)).num, (Rat.divInt (a * c) (b * d)).den⟩, ?_, ?_⟩
  · simp only [onPairs, Rational.ctor, normalise_eq a b hb, normalise_eq c d hd, Rational.mul]
    rw [normalise_eq _ _ hden, hq]
  · simp only [specMul, Rational.ctor]
    exact normalise_eq _ _ hbd

/-- C4 at `Rational(2, 4) * Rational(-3, 9)`, which is `-1/6`. -/
theorem mul_correct_witness :
    (4 : Int) ≠ 0 ∧ (9 : Int) ≠ 0 ∧
    ∃ r, onPairs Rational.mul 2 4 (-3) 9 = .ok r ∧ specMul 2 4 (-3) 9 = .ok r :=
  ⟨by decide, by decide, mul_correct 2 4 (-3) 9 (by decide) (by decide)⟩

/-- C5: at `Rational(1, 2) / Rational(1, 3)` the code divides the left numerator
by the right denominator and the left denominator by the right numerator, as
integers, and returns `0/1`, where the documented formula `(a*d) / (b*c)` gives
`3/2`; at `Rational(1, 2) / Rational(3, 1)` it raises `DivideByZeroError`
although the right operand is not zero. -/
theorem div_is_componentwise :
    onPairs Rational.div 1 2 1 3 = .ok ⟨0, 1⟩ ∧ specDiv 1 2 1 3 = .ok ⟨3, 2⟩ ∧
    onPairs Rational.div 1 2 3 1 = .error .DivideByZeroError ∧
    specDiv 1 2 3 1 = .ok ⟨1, 6⟩ := by
  decide

/-! ## Comparison -/

/-- C6: the four ordering operators compare numerators and denominators
separately.  For `1/2` and `1/3`: `1/2 < 1/3` and `1/2 <= 1/3` return true
although `1*3 < 1*2` and `1*3 <= 1*2` are false; `1/3 > 1/2` and `1/3 >= 1/2`
return true although `1*2 > 1*3` and `1*2 >= 1*3` are false. -/
theorem ordering_is_componentwise :
    Rational.Canonical ⟨1, 2⟩ ∧ Rational.Canonical ⟨1, 3⟩ ∧
    Rational.lt ⟨1, 2⟩ ⟨1, 3⟩ = true ∧ ¬ ((1 : Int) * 3 < 1 * 2) ∧
    Rational.le ⟨1, 2⟩ ⟨1, 3⟩ = true ∧ ¬ ((1 : Int) * 3 ≤ 1 * 2) ∧
    Rational.gt ⟨1, 3⟩ ⟨1, 2⟩ = true ∧ ¬ ((1 : Int) * 2 > 1 * 3) ∧
    Rational.ge ⟨1, 3⟩ ⟨1, 2⟩ = true ∧ ¬ ((1 : Int) * 2 ≥ 1 * 3) := by
  decide

/-- C7: trichotomy fails for the implemented operators: for the canonical
values `1/3` and `2/1`, both `1/3 < 2/1` and `1/3 > 2/1` return true. -/
theorem trichotomy_fails :
    Rational.Canonical ⟨1, 3⟩ ∧ Rational.Canonical ⟨2, 1⟩ ∧
    Rational.lt ⟨1, 3⟩ ⟨2, 1⟩ = true ∧ Rational.gt ⟨1, 3⟩ ⟨2, 1⟩ = true ∧
    Rational.eq ⟨1, 3⟩ ⟨2, 1⟩ = false := by
  decide

theorem eq_iff (x y : Rational) : x.eq y = true ↔ x = y := by
  obtain ⟨n, d⟩ := x
  obtain ⟨m, e⟩ := y
  simp [Rational.eq]

/-- On canonical values `operator==` decides equality of the fractions. -/
theorem eq_canonical (u v : Rational) (hu : u.Canonical) (hv : v.Canonical) :
    u.eq v = true ↔ u.numerator * v.denominator = v.numerator * u.denominator := by
  rw [eq_iff]
  constructor
  · intro h
    rw [h]
  · intro h
    have hq := (Rat.divInt_eq_iff (ne_of_gt hu.1) (ne_of_gt hv.1)).mpr h
    rw [canonical_eq_rat u hu, canonical_eq_rat v hv, hq]

/-- C8: for `b != 0` and `d != 0` both `Rational(a, b)` and `Rational(c, d)` are
constructed, and `operator==` on them returns true exactly when
`a*d == c*b`; and on any two canonical values `u`, `v` it returns true exactly
when their cross products agree: component-wise equality of canonical pairs
is equality of the fractions. -/
theorem eq_correct (a b c d : Int) (hb : b ≠ 0) (hd : d ≠ 0)
    (u v : Rational) (hu : u.Canonical) (hv : v.Canonical) :
    (∃ x y, Rational.ctor a b = .ok x ∧ Rational.ctor c d = .ok y ∧
      (x.eq y = true ↔ a * d = c * b)) ∧
    (u.eq v = true ↔ u.numerator * v.denominator = v.numerator * u.denominator) := by
  refine ⟨⟨_, _, normalise_eq a b hb, normalise_eq c d hd, ?_⟩, eq_canonical u v hu hv⟩
  rw [eq_iff, ← Rat.divInt_eq_iff hb hd]
  constructor
  · intro h
    injection h with h1 h2
    exact Rat.ext h1 (by exact_mod_cast h2)
  · intro h
    rw [h]

/-- C8 at `Rational(2, 4)` and `Rational(-3, -6)`, which are equal, and at the
canonical values `1/2` and `1/3`, which are not. -/
theorem eq_correct_witness :
    (4 : Int) ≠ 0 ∧ (-6 : Int) ≠ 0 ∧
    Rational.Canonical ⟨1, 2⟩ ∧ Rational.Canonical ⟨1, 3⟩ ∧
    (∃ x y, Rational.ctor 2 4 = .ok x ∧ Rational.ctor (-3) (-6) = .ok y ∧
      (x.eq y = true ↔ (2 : Int) * (-6) = (-3) * 4)) ∧
    (Rational.eq ⟨1, 2⟩ ⟨1, 3⟩ = true ↔ (1 : Int) * 3 = 1 * 2) :=
  ⟨by decide, by decide, by decide, by decide,
    eq_correct 2 4 (-3) (-6) (by decide) (by decide) ⟨1, 2⟩ ⟨1, 3⟩ (by decide) (by decide)⟩

/-! ## Division by zero -/

/-- C9: `Rational(n, d)` raises `DivideByZeroError` exactly when `d == 0`, and
returns a value exactly when `d != 0`. -/
theorem ctor_error_iff (n d : Int) :
    (Rational.ctor n d = .error .DivideByZeroError ↔ d = 0) ∧
    ((∃ r, Rational.ctor n d = .ok r) ↔ d ≠ 0) := by
  by_cases hd : d = 0
  · subst hd
    simp [Rational.ctor, normalise_zero]
  · simp [Rational.ctor, normalise_eq n d hd, hd]

/-- C10: for every left operand `x` and every `d != 0`, `x / Rational(0, d)`
does not reach `normalise`: the second constructor argument is the built-in
quotient `denominator / 0`, an integer division by zero, so the outcome is
that undefined division and not `DivideByZeroError`. -/
theorem div_by_zero_value (x : Rational) (d : Int) (hd : d ≠ 0) :
    ∃ z, Rational.ctor 0 d = .ok z ∧ x.div z = .error .integerDivisionByZero ∧
      x.div z ≠ .error .DivideByZeroError := by
  refine ⟨⟨0, 1⟩, ?_, ?_, ?_⟩
  · rw [Rational.ctor, normalise_eq 0 d hd]
    simp
  · simp [Rational.div, intDiv]
  · simp [Rational.div, intDiv]

/-- C10 at `Rational(1, 2) / Rational(0, 1)`. -/
theorem div_by_zero_value_witness :
    (1 : Int) ≠ 0 ∧ Rational.ctor 0 1 = .ok ⟨0, 1⟩ ∧
    Rational.div ⟨1, 2⟩ ⟨0, 1⟩ = .error .integerDivisionByZero ∧
    ∃ z, Rational.ctor 0 1 = .ok z ∧ Rational.div ⟨1, 2⟩ z = .error .integerDivisionByZero ∧
      Rational.div ⟨1, 2⟩ z ≠ .error .DivideByZeroError :=
  ⟨by decide, by decide, by decide, div_by_zero_value ⟨1, 2⟩ 1 (by decide)⟩

/-! ## Totality and compound assignment -/

theorem normalise_canonical (r : Rational) (h : r.Canonical) : r.normalise = .ok r := by
  have h1 := normalise_eq r.numerator r.denominator (ne_of_gt h.1)
  rw [← canonical_eq_rat r h] at h1
  exact h1

theorem normalise_returns (n d : Int) (hd : d ≠ 0) : ∃ r, Rational.normalise ⟨n, d⟩ = .ok r :=
  ⟨_, normalise_eq n d hd⟩

theorem renormalise_outcome (p : Rational) : p.renormalise.outcome = p.normalise := by
  unfold Rational.renormalise
  cases h : p.normalise <;> rfl

/-- C11: on canonical operands `x + y` and `x * y` always return a value, but
`x - y` does not: with equal denominators the code builds a zero denominator,
and `Rational(1, 2) - Rational(1, 2)` raises `DivideByZeroError`. -/
theorem add_mul_total_sub_partial :
    (∀ x y : Rational, x.Canonical → y.Canonical → ∃ r, x.add y = .ok r) ∧
    (∀ x y : Rational, x.Canonical → y.Canonical → ∃ r, x.mul y = .ok r) ∧
    Rational.Canonical ⟨1, 2⟩ ∧
    Rational.sub ⟨1, 2⟩ ⟨1, 2⟩ = .error .DivideByZeroError := by
  refine ⟨fun x y hx hy => ?_, fun x y hx hy => ?_, by decide, by decide⟩
  · have h1 := hx.1
    have h2 := hy.1
    exact normalise_returns _ _ (by omega)
  · exact normalise_returns _ _ (mul_ne_zero (ne_of_gt hx.1) (ne_of_gt hy.1))

/-- C11 at `1/2 + 1/2` and `1/2 * 1/2`, which return. -/
theorem add_mul_total_sub_partial_witness :
    Rational.Canonical ⟨1, 2⟩ ∧ (∃ r, Rational.add ⟨1, 2⟩ ⟨1, 2⟩ = .ok r) ∧
    (∃ r, Rational.mul ⟨1, 2⟩ ⟨1, 2⟩ = .ok r) :=
  ⟨by decide, add_mul_total_sub_partial.1 ⟨1, 2⟩ ⟨1, 2⟩ (by decide) (by decide),
    add_mul_total_sub_partial.2.1 ⟨1, 2⟩ ⟨1, 2⟩ (by decide) (by decide)⟩

/-- C12: `x += y`, `x -= y` and `x *= y` have the outcome of `x + y`, `x - y` and
`x * y` for all `x` and `y`, but `x /= y` does not have the outcome of `x / y`:
for `x = 1/2` and `y = 1/3`, `x / y` returns `0/1` while `x /= y` raises
`DivideByZeroError`. -/
theorem compound_matches_except_div :
    (∀ x y : Rational, (x.addAssign y).outcome = x.add y) ∧
    (∀ x y : Rational, (x.subAssign y).outcome = x.sub y) ∧
    (∀ x y : Rational, (x.mulAssign y).outcome = x.mul y) ∧
    Rational.Canonical ⟨1, 2⟩ ∧ Rational.Canonical ⟨1, 3⟩ ∧
    Rational.div ⟨1, 2⟩ ⟨1, 3⟩ = .ok ⟨0, 1⟩ ∧
    (Rational.divAssign ⟨1, 2⟩ ⟨1, 3⟩).outcome = .error .DivideByZeroError := by
  refine ⟨fun x y => renormalise_outcome _, fun x y => renormalise_outcome _,
    fun x y => renormalise_outcome _, by decide, by decide, by decide, by decide⟩

/-- C18: a compound assignment that raises can leave a zero denominator behind.
For `x = 1/2`, `x -= 1/2` raises `DivideByZeroError` with `x` left as `0/0`,
and `x /= 1/3` raises it with `x` left as `1/0`.  On canonical operands `+=`
and `*=` never raise. -/
theorem failed_assignment_breaks_invariant :
    Rational.Canonical ⟨1, 2⟩ ∧ Rational.Canonical ⟨1, 3⟩ ∧
    Rational.subAssign ⟨1, 2⟩ ⟨1, 2⟩ = .error (.DivideByZeroError, ⟨0, 0⟩) ∧
    Rational.divAssign ⟨1, 2⟩ ⟨1, 3⟩ = .error (.DivideByZeroError, ⟨1, 0⟩) ∧
    (∀ x y : Rational, x.Canonical → y.Canonical → ∃ r, x.addAssign y = .ok r) ∧
    (∀ x y : Rational, x.Canonical → y.Canonical → ∃ r, x.mulAssign y = .ok r) := by
  refine ⟨by decide, by decide, by decide, by decide, fun x y hx hy => ?_, fun x y hx hy => ?_⟩
  · have h1 := hx.1
    have h2 := hy.1
    obtain ⟨r, hr⟩ := normalise_returns (x.numerator + y.numerator)
      (x.denominator + y.denominator) (by omega)
    exact ⟨r, by simp [Rational.addAssign, Rational.renormalise, hr]⟩
  · obtain ⟨r, hr⟩ := normalise_returns (x.numerator * y.numerator)
      (x.denominator * y.denominator) (mul_ne_zero (ne_of_gt hx.1) (ne_of_gt hy.1))
    exact ⟨r, by simp [Rational.mulAssign, Rational.renormalise, hr]⟩

/-- C18 at `x = 1/2`, `y = 1/3`: `x += y` and `x *= y` return. -/
theorem failed_assignment_breaks_invariant_witness :
    Rational.Canonical ⟨1, 2⟩ ∧ Rational.Canonical ⟨1, 3⟩ ∧
    (∃ r, Rational.addAssign ⟨1, 2⟩ ⟨1, 3⟩ = .ok r) ∧
    (∃ r, Rational.mulAssign ⟨1, 2⟩ ⟨1, 3⟩ = .ok r) :=
  ⟨by decide, by decide,
    failed_assignment_breaks_invariant.2.2.2.2.1 ⟨1, 2⟩ ⟨1, 3⟩ (by decide) (by decide),
    failed_assignment_breaks_invariant.2.2.2.2.2 ⟨1, 2⟩ ⟨1, 3⟩ (by decide) (by decide)⟩

/-! ## abs, negate and inequality -/

/-- C15: `abs` takes the absolute value of the denominator, not of the
numerator, so on a canonical value it returns the value unchanged; `abs` of
`-1/2` is `-1/2`, not `1/2`. -/
theorem abs_is_identity (r : Rational) (h : r.Canonical) :
    r.abs = .ok r ∧ Rational.abs ⟨-1, 2⟩ = .ok ⟨-1, 2⟩ := by
  refine ⟨?_, by decide⟩
  unfold Rational.abs Rational.ctor
  rw [abs_of_pos h.1]
  exact normalise_canonical r h

/-- C15 at `-3/4`. -/
theorem abs_is_identity_witness :
    Rational.Canonical ⟨-3, 4⟩ ∧ Rational.abs ⟨-3, 4⟩ = .ok ⟨-3, 4⟩ :=
  ⟨by decide, (abs_is_identity ⟨-3, 4⟩ (by decide)).1⟩

/-- C16: `negate` flips the sign of both members and `normalise` flips both
back, so on a canonical value it returns the value unchanged; `negate` of
`1/2` is `1/2`, not `-1/2`. -/
theorem negate_is_identity (r : Rational) (h : r.Canonical) :
    r.negate = .ok r ∧ Rational.negate ⟨1, 2⟩ = .ok ⟨1, 2⟩ := by
  refine ⟨?_, by decide⟩
  have h1 := h.1
  unfold Rational.negate Rational.ctor
  rw [normalise_neg (-r.numerator) (-r.denominator) (by omega), neg_neg, neg_neg]
  exact normalise_canonical r h

/-- C16 at `-3/4`. -/
theorem negate_is_identity_witness :
    Rational.Canonical ⟨-3, 4⟩ ∧ Rational.negate ⟨-3, 4⟩ = .ok ⟨-3, 4⟩ :=
  ⟨by decide, (negate_is_identity ⟨-3, 4⟩ (by decide)).1⟩

/-- C19: `operator!=` is not the negation of `operator==`: for the canonical
values `1/2` and `1/3`, which share a numerator, both return false. -/
theorem ne_is_not_negation :
    Rational.Canonical ⟨1, 2⟩ ∧ Rational.Canonical ⟨1, 3⟩ ∧
    Rational.ne ⟨1, 2⟩ ⟨1, 3⟩ = false ∧ Rational.eq ⟨1, 2⟩ ⟨1, 3⟩ = false := by
  decide

/-! ## The scaling loop of the floating-point constructor -/

theorem scaleLoop_zero (fuel : Nat) (d : Int) : scaleLoop fuel 0 d = none := by
  induction fuel generalizing d with
  | zero => simp [scaleLoop]
  | succ k ih => simp [scaleLoop, ih]

theorem scaleLoop_exits (k : Nat) (x : Rat) (d : Int) (h : 1000000 ≤ x * 10 ^ k) :
    ∃ r, scaleLoop k x d = some r := by
  induction k generalizing x d with
  | zero =>
    have hx : ¬ x < 1000000 := by simpa using h
    exact ⟨(x, d), by simp [scaleLoop, hx]⟩
  | succ k ih =>
    by_cases hx : x < 1000000
    · have h1 : 1000000 ≤ x * 10 * 10 ^ k := by
        rw [mul_assoc, ← pow_succ']
        exact h
      obtain ⟨r, hr⟩ := ih (x * 10) (d * 10) h1
      exact ⟨r, by simp [scaleLoop, hx, hr]⟩
    · exact ⟨(x, d), by simp [scaleLoop, hx]⟩

theorem ctorDouble_of_loop (fuel : Nat) (r : Rat) (p : Rat × Int)
    (h : scaleLoop fuel |r| 1 = some p) : ∃ v, Rational.ctorDouble fuel r = some v := by
  unfold Rational.ctorDouble
  rw [h]
  cases hn : Rational.normalise ⟨truncate (r * p.2), p.2⟩ with
  | ok v => exact ⟨.ok v, by simp [hn]⟩
  | error e => exact ⟨.error e, by simp [hn]⟩

/-- C20: construction from the floating-point value `0.0` does not terminate:
started at `x = 0` the loop condition `x < 1000000` is true at every test,
whatever the number of iterations, so the constructor never gets past the loop.
For every other `r` the loop ends after finitely many iterations and the
construction completes. -/
theorem double_ctor_loops_on_zero :
    (∀ fuel : Nat, ∀ d : Int, scaleLoop fuel 0 d = none) ∧
    (∀ fuel : Nat, Rational.ctorDouble fuel 0 = none) ∧
    (∀ r : Rat, r ≠ 0 → ∃ fuel v, Rational.ctorDouble fuel r = some v) := by
  refine ⟨scaleLoop_zero, fun fuel => ?_, fun r hr => ?_⟩
  · simp [Rational.ctorDouble, scaleLoop_zero]
  · have hpos : 0 < |r| := abs_pos.mpr hr
    obtain ⟨k, hk⟩ := pow_unbounded_of_one_lt (1000000 / |r|) (by norm_num : (1 : Rat) < 10)
    have h1 : 1000000 ≤ |r| * 10 ^ k := by
      have := (div_lt_iff₀ hpos).mp hk
      linarith
    obtain ⟨p, hp⟩ := scaleLoop_exits k |r| 1 h1
    exact ⟨k, ctorDouble_of_loop k r p hp⟩

/-- C20 at `r = 1/2`, where the loop ends. -/
theorem double_ctor_loops_on_zero_witness :
    (1 / 2 : Rat) ≠ 0 ∧ ∃ fuel v, Rational.ctorDouble fuel (1 / 2) = some v :=
  ⟨by norm_num, double_ctor_loops_on_zero.2.2 (1 / 2) (by norm_num)⟩

/-! ## Text output and input -/

theorem digitChar_toNat : ∀ d < 10, (digitChar d).toNat = 48 + d := by decide

theorem isDigit_iff (c : Char) : isDigit c = true ↔ 48 ≤ c.toNat ∧ c.toNat ≤ 57 := by
  simp [isDigit]

theorem isDigit_digitChar (d : Nat) (h : d < 10) : isDigit (digitChar d) = true := by
  rw [isDigit_iff, digitChar_toNat d h]
  omega

theorem isSpace_of_isDigit (c : Char) (h : isDigit c = true) : isSpace c = false := by
  rw [isDigit_iff] at h
  simp only [isSpace, Bool.or_eq_false_iff, beq_eq_false_iff_ne, Bool.and_eq_false_iff,
    decide_eq_false_iff_not]
  omega

theorem digitsValue_snoc (ds : List Char) (c : Char) :
    digitsValue (ds ++ [c]) = 10 * digitsValue ds + (c.toNat - 48) := by
  simp [digitsValue, List.foldl_append]

/-- What `natToChars` puts in front of `acc`: a non-empty string of digits whose
value is `n`. -/
theorem natToChars_spec (fuel : Nat) : ∀ (n : Nat) (acc : List Char), n < fuel →
    ∃ ds, natToChars fuel n acc = ds ++ acc ∧ ds ≠ [] ∧ (∀ c ∈ ds, isDigit c = true) ∧
      digitsValue ds = n := by
  induction fuel with
  | zero => intro n acc h; omega
  | succ k ih =>
    intro n acc h
    have hm : n % 10 < 10 := Nat.mod_lt _ (by decide)
    by_cases h0 : n / 10 = 0
    · refine ⟨[digitChar (n % 10)], by simp [natToChars, h0], by simp, ?_, ?_⟩
      · intro c hc
        rw [List.mem_singleton] at hc
        rw [hc]
        exact isDigit_digitChar _ hm
      · simp only [digitsValue, List.foldl_cons, List.foldl_nil, digitChar_toNat _ hm]
        omega
    · obtain ⟨ds, h1, _, h3, h4⟩ := ih (n / 10) (digitChar (n % 10) :: acc) (by omega)
      refine ⟨ds ++ [digitChar (n % 10)], by simp [natToChars, h0, h1], by simp, ?_, ?_⟩
      · intro c hc
        rw [List.mem_append, List.mem_singleton] at hc
        rcases hc with hc | hc
        · exact h3 c hc
        · rw [hc]
          exact isDigit_digitChar _ hm
      · rw [digitsValue_snoc, h4, digitChar_toNat _ hm]
        omega

theorem showNat_spec (n : Nat) :
    showNat n ≠ [] ∧ (∀ c ∈ showNat n, isDigit c = true) ∧ digitsValue (showNat n) = n := by
  obtain ⟨ds, h1, h2, h3, h4⟩ := natToChars_spec (n + 1) n [] (by omega)
  rw [List.append_nil] at h1
  unfold showNat
  rw [h1]
  exact ⟨h2, h3, h4⟩

theorem takeWhile_digits_append (ds t : List Char) (hds : ∀ c ∈ ds, isDigit c = true)
    (ht : startsWithDigit t = false) :
    (ds ++ t).takeWhile isDigit = ds ∧ (ds ++ t).dropWhile isDigit = t := by
  induction ds with
  | nil =>
    cases t with
    | nil => simp
    | cons c t1 =>
      have hc : isDigit c = false := ht
      simp [List.takeWhile, List.dropWhile, hc]
  | cons c ds1 ih =>
    have hc : isDigit c = true := hds c (List.mem_cons_self _ _)
    have h1 := ih (fun c1 h1 => hds c1 (List.mem_cons_of_mem _ h1))
    simp [List.takeWhile, List.dropWhile, hc, h1.1, h1.2]

theorem readInt_unsigned (ds t : List Char) (v : Int) (hne : ds ≠ [])
    (hds : ∀ c ∈ ds, isDigit c = true) (ht : startsWithDigit t = false) :
    readInt ⟨ds ++ t, false, false⟩ v = (⟨t, false, t.isEmpty⟩, (digitsValue ds : Int)) := by
  obtain ⟨h1, h2⟩ := takeWhile_digits_append ds t hds ht
  cases ds with
  | nil => exact absurd rfl hne
  | cons c ds1 =>
    have hc : isDigit c = true := hds c (List.mem_cons_self _ _)
    have hsp : isSpace c = false := isSpace_of_isDigit c hc
    have hr := (isDigit_iff c).mp hc
    have h45 : c.toNat ≠ 45 := by omega
    have h43 : c.toNat ≠ 43 := by omega
    rw [List.cons_append] at h1 h2
    have hdrop : List.dropWhile isSpace (c :: (ds1 ++ t)) = c :: (ds1 ++ t) := by
      simp [List.dropWhile, hsp]
    simp only [readInt, IStream.good, List.cons_append, hdrop, h45, h43,
      or_self, if_false, h1, h2, Bool.not_false, Bool.and_self, if_true, List.isEmpty_cons,
      Bool.false_eq_true]

theorem readInt_minus (ds t : List Char) (v : Int) (hne : ds ≠ [])
    (hds : ∀ c ∈ ds, isDigit c = true) (ht : startsWithDigit t = false) :
    readInt ⟨Char.ofNat 45 :: (ds ++ t), false, false⟩ v =
      (⟨t, false, t.isEmpty⟩, -(digitsValue ds : Int)) := by
  obtain ⟨h1, h2⟩ := takeWhile_digits_append ds t hds ht
  have hsp : isSpace (Char.ofNat 45) = false := by decide
  have h45 : (Char.ofNat 45).toNat = 45 := by decide
  have hemp : (ds.isEmpty) = false := by
    cases ds with
    | nil => exact absurd rfl hne
    | cons c ds1 => rfl
  have hdrop : List.dropWhile isSpace (Char.ofNat 45 :: (ds ++ t)) = Char.ofNat 45 :: (ds ++ t) := by
    simp [List.dropWhile, hsp]
  simp only [readInt, IStream.good, hdrop, h45, true_or, if_true, h1, h2,
    Bool.not_false, Bool.and_self, hemp, Bool.false_eq_true, if_false]

/-- Reading back the decimal text of `n`, followed by anything that does not
start with a digit, stores `n` and stops in front of what follows. -/
theorem readInt_showInt (n : Int) (t : List Char) (v : Int)
    (ht : startsWithDigit t = false) :
    readInt ⟨showInt n ++ t, false, false⟩ v = (⟨t, false, t.isEmpty⟩, n) := by
  obtain ⟨h1, h2, h3⟩ := showNat_spec n.natAbs
  unfold showInt
  by_cases hn : n < 0
  · rw [if_pos hn, List.cons_append, readInt_minus _ t v h1 h2 ht, h3]
    congr 1
    omega
  · rw [if_neg hn, readInt_unsigned _ t v h1 h2 ht, h3]
    congr 1
    omega

theorem readOptionalDivisor_slash (t : List Char) :
    readOptionalDivisor ⟨Char.ofNat 47 :: t, false, false⟩ = readInt ⟨t, false, false⟩ 1 := by
  simp [readOptionalDivisor, tryReadChar, IStream.peek, IStream.ignore, IStream.good]

theorem readOptionalDivisor_other (c : Char) (t : List Char) (hc : c ≠ Char.ofNat 47) :
    readOptionalDivisor ⟨c :: t, false, false⟩ = (⟨c :: t, false, false⟩, 1) := by
  simp [readOptionalDivisor, tryReadChar, IStream.peek, IStream.good, hc]

theorem readOptionalDivisor_eof :
    readOptionalDivisor ⟨[], false, true⟩ = (⟨[], true, true⟩, 1) := by
  decide

theorem readOptionalDivisor_failed (b : List Char) (e : Bool) :
    readOptionalDivisor ⟨b, true, e⟩ = (⟨b, true, e⟩, 1) := by
  simp [readOptionalDivisor, tryReadChar, IStream.peek, IStream.good]

theorem startsWithDigit_slash (t : List Char) : startsWithDigit (Char.ofNat 47 :: t) = false := by
  have h : isDigit (Char.ofNat 47) = false := by decide
  exact h

/-- What `operator>>` does on `<n>/<d>` followed by text that does not start
with a digit: it stops in front of that text and normalises `n/d`. -/
theorem read_pair (n d : Int) (t : List Char) (ht : startsWithDigit t = false)
    (init : Rational) :
    Rational.read ⟨showInt n ++ Char.ofNat 47 :: (showInt d ++ t), false, false⟩ init =
      match Rational.normalise ⟨n, d⟩ with
      | .ok r1 => .ok (⟨t, false, t.isEmpty⟩, r1)
      | .error e => .error e := by
  unfold Rational.read
  rw [readInt_showInt n _ _ (startsWithDigit_slash _)]
  simp only [List.isEmpty_cons]
  rw [readOptionalDivisor_slash, readInt_showInt d t 1 ht]

/-- What `operator>>` does on `<n>` followed by a character that is neither a
digit nor `/`: it stops in front of that character with divisor 1. -/
theorem read_single (n : Int) (c : Char) (t : List Char) (hd : isDigit c = false)
    (hs : c ≠ Char.ofNat 47) (init : Rational) :
    Rational.read ⟨showInt n ++ c :: t, false, false⟩ init =
      match Rational.normalise ⟨n, 1⟩ with
      | .ok r1 => .ok (⟨c :: t, false, false⟩, r1)
      | .error e => .error e := by
  unfold Rational.read
  rw [readInt_showInt n (c :: t) _ hd]
  simp only [List.isEmpty_cons]
  rw [readOptionalDivisor_other c t hs]

/-- What `operator>>` does on `<n>` alone: it reaches the end of input with
divisor 1. -/
theorem read_single_end (n : Int) (init : Rational) :
    Rational.read ⟨showInt n, false, false⟩ init =
      match Rational.normalise ⟨n, 1⟩ with
      | .ok r1 => .ok (⟨[], true, true⟩, r1)
      | .error e => .error e := by
  unfold Rational.read
  have h := readInt_showInt n [] init.numerator rfl
  rw [List.append_nil] at h
  rw [h]
  simp only [List.isEmpty_nil]
  rw [readOptionalDivisor_eof]

/-- C13: for every canonical value `r`, constructing a `Rational` from the text
`operator<<` writes for `r` returns normally, whatever the members held
before, and the value constructed is `r`. -/
theorem round_trip (r : Rational) (h : r.Canonical) (init : Rational) :
    ∃ v, Rational.ctorString r.format init = .ok v ∧ v = r ∧ v.eq r = true := by
  refine ⟨r, ?_, rfl, (eq_iff r r).mpr rfl⟩
  obtain ⟨n, d⟩ := r
  unfold Rational.ctorString Rational.format Rational.write IStream.ofString
  simp only [String.toList]
  by_cases hd : d = 1
  · subst hd
    simp only [ne_eq, not_true_eq_false, if_false, List.append_nil]
    rw [read_single_end, normalise_canonical _ h]
    rfl
  · simp only [ne_eq, hd, not_false_eq_true, if_true]
    have h1 := read_pair n d [] rfl init
    rw [List.append_nil, normalise_canonical _ h] at h1
    rw [h1]
    rfl

/-- C13 at `-3/4`, written as `-3/4` and read back. -/
theorem round_trip_witness :
    Rational.Canonical ⟨-3, 4⟩ ∧ Rational.format ⟨-3, 4⟩ = "-3/4" ∧
    ∃ v, Rational.ctorString (Rational.format ⟨-3, 4⟩) ⟨0, 0⟩ = .ok v ∧ v = ⟨-3, 4⟩ ∧
      v.eq ⟨-3, 4⟩ = true :=
  ⟨by decide, by decide, round_trip ⟨-3, 4⟩ (by decide) ⟨0, 0⟩⟩

theorem readInt_no_number (c : Char) (t : List Char) (v : Int) (hsp : isSpace c = false)
    (hd : isDigit c = false) (h45 : c.toNat ≠ 45) (h43 : c.toNat ≠ 43) :
    readInt ⟨c :: t, false, false⟩ v = (⟨c :: t, true, false⟩, 0) := by
  have hdrop : List.dropWhile isSpace (c :: t) = c :: t := by simp [List.dropWhile, hsp]
  have htake : List.takeWhile isDigit (c :: t) = [] := by simp [List.takeWhile, hd]
  have hrest : List.dropWhile isDigit (c :: t) = c :: t := by simp [List.dropWhile, hd]
  simp only [readInt, IStream.good, hdrop, h45, h43, or_self, if_false, htake, hrest,
    Bool.not_false, Bool.and_self, if_true, List.isEmpty_nil, List.isEmpty_cons]

/-! ## Construction from arbitrary text -/

theorem dropWhile_space_append (ws b : List Char) (h : ∀ c ∈ ws, isSpace c = true) :
    (ws ++ b).dropWhile isSpace = b.dropWhile isSpace := by
  induction ws with
  | nil => rfl
  | cons c ws1 ih =>
    have hc : isSpace c = true := h c (List.mem_cons_self _ _)
    rw [List.cons_append, List.dropWhile_cons_of_pos hc]
    exact ih (fun c1 h1 => h c1 (List.mem_cons_of_mem _ h1))

/-- Leading whitespace does not change what `input >> v` does. -/
theorem readInt_skip (ws b : List Char) (v : Int) (h : ∀ c ∈ ws, isSpace c = true) :
    readInt ⟨ws ++ b, false, false⟩ v = readInt ⟨b, false, false⟩ v := by
  simp only [readInt, dropWhile_space_append ws b h, IStream.good, Bool.not_false,
    Bool.and_self, if_true]

theorem readInt_plus (ds t : List Char) (v : Int) (hne : ds ≠ [])
    (hds : ∀ c ∈ ds, isDigit c = true) (ht : startsWithDigit t = false) :
    readInt ⟨Char.ofNat 43 :: (ds ++ t), false, false⟩ v =
      (⟨t, false, t.isEmpty⟩, (digitsValue ds : Int)) := by
  obtain ⟨h1, h2⟩ := takeWhile_digits_append ds t hds ht
  have hsp : isSpace (Char.ofNat 43) = false := by decide
  have h43 : (Char.ofNat 43).toNat = 43 := by decide
  have hemp : (ds.isEmpty) = false := by
    cases ds with
    | nil => exact absurd rfl hne
    | cons c ds1 => rfl
  have hdrop : List.dropWhile isSpace (Char.ofNat 43 :: (ds ++ t)) = Char.ofNat 43 :: (ds ++ t) := by
    simp [List.dropWhile, hsp]
  simp only [readInt, IStream.good, hdrop, h43, or_true, if_true, h1, h2,
    Bool.not_false, Bool.and_self, hemp, Bool.false_eq_true, if_false]
  simp

/-- What `input >> v` does on a well-formed integer token followed by text that
does not start with a digit: it stores the number, of any size, and stops in
front of that text. -/
theorem readInt_token (k : IntToken) (hk : k.WellFormed) (t : List Char) (v : Int)
    (ht : startsWithDigit t = false) :
    readInt ⟨k.text ++ t, false, false⟩ v = (⟨t, false, t.isEmpty⟩, k.value) := by
  obtain ⟨ws, sg, ds⟩ := k
  obtain ⟨hws, hne, hds⟩ := hk
  simp only at hws hne hds
  simp only [IntToken.text, IntToken.value, List.append_assoc]
  rw [readInt_skip ws _ v hws]
  cases sg with
  | absent => exact readInt_unsigned ds t v hne hds ht
  | plus => exact readInt_plus ds t v hne hds ht
  | minus => exact readInt_minus ds t v hne hds ht

/-- What `input >> v` does on such a token with the range of `long long int`:
the number is stored when it fits, else the nearest bound is stored and
`failbit` is set. -/
theorem readLongLong_token (k : IntToken) (hk : k.WellFormed) (t : List Char) (v : Int)
    (ht : startsWithDigit t = false) :
    readLongLong ⟨k.text ++ t, false, false⟩ v =
      (⟨t, !decide (inRange k.value), t.isEmpty⟩, clamp k.value) := by
  unfold readLongLong
  rw [readInt_token k hk t v ht]
  simp only [Bool.false_eq_true, if_false, clamp, inRange]
  by_cases h1 : LLONG_MAX < k.value
  · have h2 : ¬ (LLONG_MIN ≤ k.value ∧ k.value ≤ LLONG_MAX) := by omega
    simp [h1, h2]
  · by_cases h3 : k.value < LLONG_MIN
    · have h2 : ¬ (LLONG_MIN ≤ k.value ∧ k.value ≤ LLONG_MAX) := by omega
      simp [h1, h3, h2]
    · have h2 : LLONG_MIN ≤ k.value ∧ k.value ≤ LLONG_MAX := by omega
      simp [h1, h3, h2]

theorem readInt_sign_no_number (sg : Sign) (c : Char) (t : List Char) (v : Int)
    (hd : isDigit c = false)
    (hs : sg = .absent → isSpace c = false ∧ c.toNat ≠ 45 ∧ c.toNat ≠ 43) :
    readInt ⟨sg.chars ++ c :: t, false, false⟩ v = (⟨c :: t, true, false⟩, 0) := by
  have htake : List.takeWhile isDigit (c :: t) = [] := by simp [List.takeWhile, hd]
  have hrest : List.dropWhile isDigit (c :: t) = c :: t := by simp [List.dropWhile, hd]
  cases sg with
  | absent =>
    obtain ⟨hsp, h45, h43⟩ := hs rfl
    exact readInt_no_number c t v hsp hd h45 h43
  | plus =>
    have hsp : isSpace (Char.ofNat 43) = false := by decide
    have h43 : (Char.ofNat 43).toNat = 43 := by decide
    have hdrop : List.dropWhile isSpace (Char.ofNat 43 :: c :: t) = Char.ofNat 43 :: c :: t := by
      simp [List.dropWhile, hsp]
    simp only [Sign.chars, List.cons_append, List.nil_append, readInt, IStream.good, hdrop, h43,
      or_true, if_true, htake, hrest, Bool.not_false, Bool.and_self, List.isEmpty_nil,
      List.isEmpty_cons]
  | minus =>
    have hsp : isSpace (Char.ofNat 45) = false := by decide
    have h45 : (Char.ofNat 45).toNat = 45 := by decide
    have hdrop : List.dropWhile isSpace (Char.ofNat 45 :: c :: t) = Char.ofNat 45 :: c :: t := by
      simp [List.dropWhile, hsp]
    simp only [Sign.chars, List.cons_append, List.nil_append, readInt, IStream.good, hdrop, h45,
      true_or, if_true, htake, hrest, Bool.not_false, Bool.and_self, List.isEmpty_nil,
      List.isEmpty_cons]

theorem readOptionalDivisorLL_slash (t : List Char) :
    readOptionalDivisorLL ⟨Char.ofNat 47 :: t, false, false⟩ =
      readLongLong ⟨t, false, false⟩ 1 := by
  simp [readOptionalDivisorLL, tryReadChar, IStream.peek, IStream.ignore, IStream.good]

theorem readOptionalDivisorLL_failed (b : List Char) (e : Bool) :
    readOptionalDivisorLL ⟨b, true, e⟩ = (⟨b, true, e⟩, 1) := by
  simp [readOptionalDivisorLL, tryReadChar, IStream.peek, IStream.good]

theorem readOptionalDivisorLL_other (c : Char) (t : List Char) (f : Bool)
    (hc : c ≠ Char.ofNat 47) :
    readOptionalDivisorLL ⟨c :: t, f, false⟩ = (⟨c :: t, f, false⟩, 1) := by
  cases f with
  | true => exact readOptionalDivisorLL_failed _ _
  | false => simp [readOptionalDivisorLL, tryReadChar, IStream.peek, IStream.good, hc]

theorem normalise_one (n : Int) : Rational.normalise ⟨n, 1⟩ = .ok ⟨n, 1⟩ := by
  have h := normalise_eq n 1 (by decide)
  simpa using h

theorem clamp_of_inRange (n : Int) (h : inRange n) : clamp n = n := by
  unfold inRange at h
  unfold clamp
  rw [if_neg (by omega), if_neg (by omega)]

theorem clamp_ne_zero (n : Int) (h : n ≠ 0) : clamp n ≠ 0 := by
  unfold clamp LLONG_MAX LLONG_MIN
  split
  · decide
  · split
    · decide
    · exact h

/-- What `operator>>` does on text that holds no number where the numerator is
expected: it stores 0 over 1 and leaves the text unread, with `failbit` set. -/
theorem readLL_no_number (ws : List Char) (sg : Sign) (c : Char) (t : List Char)
    (init : Rational) (hws : ∀ x ∈ ws, isSpace x = true) (hd : isDigit c = false)
    (hs : sg = .absent → isSpace c = false ∧ c.toNat ≠ 45 ∧ c.toNat ≠ 43) :
    Rational.readLL ⟨ws ++ (sg.chars ++ c :: t), false, false⟩ init =
      .ok (⟨c :: t, true, false⟩, ⟨0, 1⟩) := by
  unfold Rational.readLL readLongLong
  rw [readInt_skip ws _ _ hws, readInt_sign_no_number sg c t _ hd hs]
  simp only [if_true]
  rw [readOptionalDivisorLL_failed, normalise_one]

/-- What `operator>>` does on a well-formed integer followed by a character that
is neither a digit nor `/`: it stops in front of that character, with the
number or the nearest bound over 1. -/
theorem readLL_single (k : IntToken) (hk : k.WellFormed) (c : Char) (t : List Char)
    (hd : isDigit c = false) (hs : c ≠ Char.ofNat 47) (init : Rational) :
    Rational.readLL ⟨k.text ++ c :: t, false, false⟩ init =
      .ok (⟨c :: t, !decide (inRange k.value), false⟩, ⟨clamp k.value, 1⟩) := by
  unfold Rational.readLL
  rw [readLongLong_token k hk (c :: t) _ hd]
  simp only [List.isEmpty_cons]
  rw [readOptionalDivisorLL_other c t _ hs, normalise_one]

/-- What `operator>>` does on `<integer>/...` when the integer does not fit: the
stream has failed, so the `/` is not read and the divisor is 1. -/
theorem readLL_overflow (k : IntToken) (hk : k.WellFormed) (t : List Char)
    (hr : ¬ inRange k.value) (init : Rational) :
    Rational.readLL ⟨k.text ++ Char.ofNat 47 :: t, false, false⟩ init =
      .ok (⟨Char.ofNat 47 :: t, true, false⟩, ⟨clamp k.value, 1⟩) := by
  unfold Rational.readLL
  rw [readLongLong_token k hk _ _ (startsWithDigit_slash t)]
  simp only [List.isEmpty_cons, hr, decide_False, Bool.not_false]
  rw [readOptionalDivisorLL_failed, normalise_one]

/-- What `operator>>` does on `<integer>/<integer>` followed by text that does
not start with a digit, when the first integer fits: it stops in front of that
text and normalises the first number over the second, or its nearest bound. -/
theorem readLL_pair (k1 k2 : IntToken) (h1 : k1.WellFormed) (h2 : k2.WellFormed)
    (t : List Char) (ht : startsWithDigit t = false) (hr : inRange k1.value)
    (init : Rational) :
    Rational.readLL ⟨k1.text ++ Char.ofNat 47 :: (k2.text ++ t), false, false⟩ init =
      match Rational.normalise ⟨k1.value, clamp k2.value⟩ with
      | .ok r1 => .ok (⟨t, !decide (inRange k2.value), t.isEmpty⟩, r1)
      | .error e => .error e := by
  unfold Rational.readLL
  rw [readLongLong_token k1 h1 _ _ (startsWithDigit_slash _)]
  simp only [List.isEmpty_cons, hr, decide_True, Bool.not_true, clamp_of_inRange _ hr]
  rw [readOptionalDivisorLL_slash, readLongLong_token k2 h2 t 1 ht]

/-- On a token that fits, the bounded extraction is the unbounded one. -/
theorem readLongLong_of_inRange (input : IStream) (v : Int)
    (h : inRange (readInt input v).2) : readLongLong input v = readInt input v := by
  unfold inRange at h
  unfold readLongLong
  cases hq : readInt input v with
  | mk s n =>
    rw [hq] at h
    simp only at h
    simp only
    by_cases hf : s.failbit = true
    · rw [if_pos hf]
    · rw [if_neg hf, if_neg (by omega), if_neg (by omega)]

theorem readLongLong_showInt (n : Int) (t : List Char) (v : Int)
    (ht : startsWithDigit t = false) (hr : inRange n) :
    readLongLong ⟨showInt n ++ t, false, false⟩ v = (⟨t, false, t.isEmpty⟩, n) := by
  have h := readInt_showInt n t v ht
  rw [readLongLong_of_inRange _ _ (by rw [h]; exact hr), h]

/-- The round trip through text also holds over the bounded extraction, for
every canonical value whose members fit `long long int`: the text written is
read back by `Rational.ctorStringLL` as the same value. -/
theorem round_trip_long_long (r : Rational) (h : r.Canonical) (hn : inRange r.numerator)
    (hd : inRange r.denominator) (init : Rational) :
    Rational.ctorStringLL r.format init = .ok r := by
  obtain ⟨n, d⟩ := r
  simp only at hn hd
  unfold Rational.ctorStringLL Rational.format Rational.write IStream.ofString Rational.readLL
  simp only [String.toList]
  by_cases h1 : d = 1
  · subst h1
    simp only [ne_eq, not_true_eq_false, if_false, List.append_nil]
    have h2 := readLongLong_showInt n [] init.numerator rfl hn
    rw [List.append_nil] at h2
    rw [h2]
    have h3 : readOptionalDivisorLL ⟨[], false, true⟩ = (⟨[], true, true⟩, 1) := by decide
    simp only [List.isEmpty_nil]
    rw [h3, normalise_canonical _ h]
    rfl
  · simp only [ne_eq, h1, not_false_eq_true, if_true]
    rw [readLongLong_showInt n _ _ (startsWithDigit_slash _) hn]
    simp only [List.isEmpty_cons]
    have h2 := readLongLong_showInt d [] 1 rfl hd
    rw [List.append_nil] at h2
    rw [readOptionalDivisorLL_slash, h2, normalise_canonical _ h]
    rfl

/-- C14, where the claim fails: on `"7/0x"` the constructor raises
`DivideByZeroError`, not the invalid-format error, whatever the members held
before: `operator>>` normalises, and throws, before the constructor looks for
unread characters. -/
theorem trailing_after_zero_divisor :
    Rational.ctorStringLL "7/0x" ⟨0, 1⟩ = .error .DivideByZeroError ∧
    Rational.ctorStringLL "7/0x" ⟨0, 1⟩ ≠ .error .invalid_argument ∧
    (∀ init : Rational, Rational.ctorStringLL "7/0x" init = .error .DivideByZeroError) :=
  ⟨by decide, by decide, fun _ => rfl⟩

/-- C14 as amended.  Take integers as `operator>>` reads them: optional
whitespace, an optional sign, one or more digits, of any length.  The
constructor from text raises the invalid-format error for `<integer>` followed
by text that starts with a character `c` that is neither a digit nor `/`; for
`<integer>/<integer>` followed by text that starts with a non-digit `c`, unless
the first integer fits `long long int` and the second is zero; and for
whitespace and an optional sign followed by text that starts with a
non-digit `c` (without a sign, `c` being neither whitespace nor a sign):
text that holds no number at its start; and for an integer that does not fit
`long long int` followed by `/`, whatever comes after.  In the excepted case,
`<integer>/<integer>` with the first integer in range and the second zero, it
raises `DivideByZeroError`, with or without text after it. -/
theorem ctorStringLL_invalid (k1 k2 : IntToken) (ws : List Char) (sg : Sign) (c : Char)
    (t : List Char) (init : Rational) (h1 : k1.WellFormed) (h2 : k2.WellFormed)
    (hws : ∀ x ∈ ws, isSpace x = true) (hc : isDigit c = false) :
    (c ≠ Char.ofNat 47 →
      Rational.ctorStringLL (String.mk (k1.text ++ c :: t)) init = .error .invalid_argument) ∧
    (¬ (inRange k1.value ∧ k2.value = 0) →
      Rational.ctorStringLL (String.mk (k1.text ++ Char.ofNat 47 :: (k2.text ++ c :: t))) init
        = .error .invalid_argument) ∧
    (inRange k1.value → k2.value = 0 →
      Rational.ctorStringLL (String.mk (k1.text ++ Char.ofNat 47 :: (k2.text ++ c :: t))) init
        = .error .DivideByZeroError ∧
      Rational.ctorStringLL (String.mk (k1.text ++ Char.ofNat 47 :: k2.text)) init
        = .error .DivideByZeroError) ∧
    ((sg = .absent → isSpace c = false ∧ c.toNat ≠ 45 ∧ c.toNat ≠ 43) →
      Rational.ctorStringLL (String.mk (ws ++ (sg.chars ++ c :: t))) init
        = .error .invalid_argument) ∧
    (¬ inRange k1.value →
      Rational.ctorStringLL (String.mk (k1.text ++ Char.ofNat 47 :: t)) init
        = .error .invalid_argument) := by
  refine ⟨fun hs => ?_, fun hn => ?_, fun hr hz => ⟨?_, ?_⟩, fun hs => ?_, fun hr => ?_⟩
  · simp only [Rational.ctorStringLL, IStream.ofString, String.toList]
    rw [readLL_single k1 h1 c t hc hs init]
    rfl
  · simp only [Rational.ctorStringLL, IStream.ofString, String.toList]
    by_cases hr : inRange k1.value
    · have hz : k2.value ≠ 0 := fun hz => hn ⟨hr, hz⟩
      obtain ⟨r, hr2⟩ := normalise_returns k1.value (clamp k2.value) (clamp_ne_zero _ hz)
      rw [readLL_pair k1 k2 h1 h2 (c :: t) hc hr init, hr2]
      rfl
    · rw [readLL_overflow k1 h1 _ hr init]
      rfl
  · simp only [Rational.ctorStringLL, IStream.ofString, String.toList]
    rw [readLL_pair k1 k2 h1 h2 (c :: t) hc hr init, hz]
    have h0 : clamp 0 = 0 := by decide
    rw [h0, normalise_zero]
  · simp only [Rational.ctorStringLL, IStream.ofString, String.toList]
    have h := readLL_pair k1 k2 h1 h2 [] rfl hr init
    rw [List.append_nil] at h
    rw [h, hz]
    have h0 : clamp 0 = 0 := by decide
    rw [h0, normalise_zero]
  · simp only [Rational.ctorStringLL, IStream.ofString, String.toList]
    rw [readLL_no_number ws sg c t init hws hc hs]
    rfl
  · simp only [Rational.ctorStringLL, IStream.ofString, String.toList]
    rw [readLL_overflow k1 h1 t hr init]
    rfl

/-- C14 as amended, at `" +007x"`, `" +007/3x"`, `" -x"`, `"7/0x"`, `"7/0"` and
`"99999999999999999999/0x"` and `"99999999999999999999/"`, whose first integer
does not fit. -/
theorem ctorStringLL_invalid_witness :
    IntToken.WellFormed ⟨[Char.ofNat 32], .plus, [Char.ofNat 48, Char.ofNat 48, Char.ofNat 55]⟩ ∧
    IntToken.WellFormed ⟨[], .absent, [Char.ofNat 51]⟩ ∧
    Rational.ctorStringLL " +007x" ⟨0, 1⟩ = .error .invalid_argument ∧
    Rational.ctorStringLL " +007/3x" ⟨0, 1⟩ = .error .invalid_argument ∧
    Rational.ctorStringLL " -x" ⟨0, 1⟩ = .error .invalid_argument ∧
    Rational.ctorStringLL "7/0x" ⟨0, 1⟩ = .error .DivideByZeroError ∧
    Rational.ctorStringLL "7/0" ⟨0, 1⟩ = .error .DivideByZeroError ∧
    Rational.ctorStringLL "99999999999999999999/0x" ⟨0, 1⟩ = .error .invalid_argument ∧
    Rational.ctorStringLL "99999999999999999999/" ⟨0, 1⟩ = .error .invalid_argument :=
  ⟨by decide, by decide,
    (ctorStringLL_invalid
      ⟨[Char.ofNat 32], .plus, [Char.ofNat 48, Char.ofNat 48, Char.ofNat 55]⟩
      ⟨[], .absent, [Char.ofNat 51]⟩ [Char.ofNat 32] .minus (Char.ofNat 120) [] ⟨0, 1⟩
      (by decide) (by decide) (by decide) (by decide)).1 (by decide),
    (ctorStringLL_invalid
      ⟨[Char.ofNat 32], .plus, [Char.ofNat 48, Char.ofNat 48, Char.ofNat 55]⟩
      ⟨[], .absent, [Char.ofNat 51]⟩ [Char.ofNat 32] .minus (Char.ofNat 120) [] ⟨0, 1⟩
      (by decide) (by decide) (by decide) (by decide)).2.1 (by decide),
    (ctorStringLL_invalid
      ⟨[Char.ofNat 32], .plus, [Char.ofNat 48, Char.ofNat 48, Char.ofNat 55]⟩
      ⟨[], .absent, [Char.ofNat 51]⟩ [Char.ofNat 32] .minus (Char.ofNat 120) [] ⟨0, 1⟩
      (by decide) (by decide) (by decide) (by decide)).2.2.2.1 (by decide),
    ((ctorStringLL_invalid ⟨[], .absent, [Char.ofNat 55]⟩ ⟨[], .absent, [Char.ofNat 48]⟩
      [] .absent (Char.ofNat 120) [] ⟨0, 1⟩
      (by decide) (by decide) (by decide) (by decide)).2.2.1 (by decide) (by decide)).1,
    ((ctorStringLL_invalid ⟨[], .absent, [Char.ofNat 55]⟩ ⟨[], .absent, [Char.ofNat 48]⟩
      [] .absent (Char.ofNat 120) [] ⟨0, 1⟩
      (by decide) (by decide) (by decide) (by decide)).2.2.1 (by decide) (by decide)).2,
    (ctorStringLL_invalid
      ⟨[], .absent, List.replicate 20 (Char.ofNat 57)⟩ ⟨[], .absent, [Char.ofNat 48]⟩
      [] .absent (Char.ofNat 120) [] ⟨0, 1⟩
      (by decide) (by decide) (by decide) (by decide)).2.1 (by decide),
    (ctorStringLL_invalid
      ⟨[], .absent, List.replicate 20 (Char.ofNat 57)⟩ ⟨[], .absent, [Char.ofNat 48]⟩
      [] .absent (Char.ofNat 120) [] ⟨0, 1⟩
      (by decide) (by decide) (by decide) (by decide)).2.2.2.2 (by decide)⟩

theorem write_cases (r : Rational) :
    (r.denominator = 1 → r.write = showInt r.numerator) ∧
    (r.denominator ≠ 1 →
      r.write = showInt r.numerator ++ Char.ofNat 47 :: showInt r.denominator) := by
  constructor <;> intro h <;> simp [Rational.write, h]

/-- C17: for `d != 0`, `Rational(n, d)` is a canonical value `r`, and the text
`operator<<` writes for it is the decimal numerator alone when the denominator
of `r` is 1, and otherwise the numerator, a `/` and the denominator.
`Rational(6, 8)` writes `3/4` and `Rational(0, 5)` writes `0`. -/
theorem write_canonical (n d : Int) (hd : d ≠ 0) :
    (∃ r, Rational.ctor n d = .ok r ∧ r.Canonical ∧
      (r.denominator = 1 → r.write = showInt r.numerator) ∧
      (r.denominator ≠ 1 →
        r.write = showInt r.numerator ++ Char.ofNat 47 :: showInt r.denominator)) ∧
    (Rational.ctor 6 8).map Rational.format = .ok "3/4" ∧
    (Rational.ctor 0 5).map Rational.format = .ok "0" := by
  exact ⟨⟨_, normalise_eq n d hd, canonical_of_rat _, (write_cases _).1, (write_cases _).2⟩,
    by decide, by decide⟩

/-- C17 at `Rational(-10, 4)`, which writes `-5/2`. -/
theorem write_canonical_witness :
    (4 : Int) ≠ 0 ∧ (Rational.ctor (-10) 4).map Rational.format = .ok "-5/2" ∧
    ∃ r, Rational.ctor (-10) 4 = .ok r ∧ r.Canonical ∧
      (r.denominator = 1 → r.write = showInt r.numerator) ∧
      (r.denominator ≠ 1 →
        r.write = showInt r.numerator ++ Char.ofNat 47 :: showInt r.denominator) :=
  ⟨by decide, by decide, (write_canonical (-10) 4 (by decide)).1⟩

end ExactArithmetic
